import Mathlib

/-!
Verification development for the dummy-file-manager repository (src/main.cpp).

The C++ program is shallowly embedded below.  Pointers to `Folder` objects are
modelled as natural-number ids into a heap (`FMState.heap`); `new` allocates at
`nextId` which is then incremented, and `delete` leaves the cell in place
(memory persists after free; freed cells are simply never reachable again in
well-behaved executions).  `std::unordered_map` is modelled as an association
list with unique keys.  C++ exceptions are modelled with the `CppExc` type:
each public operation of `FileManager` re-creates the source try/catch shape,
returning `.ok state diag` when the call returns normally (with `diag` the
text printed to `std::cerr`, if any) and `.escaped exc state` when an exception
escapes the operation uncaught (in the real program this terminates the
process, since `main` installs no handler).
-/

/-- Message thrown by `splitFilePath` for a leading separator (main.cpp:230). -/
def preMsg : String := "Preceeding \"/\" not allowed in filePath"

/-- Message thrown by `splitFilePath` for adjacent separators (main.cpp:242). -/
def adjMsg : String := "Adjacent \"/\" not allowed in filePath"

/-- Message thrown by `throwIfNameInvalid` (main.cpp:259). -/
def invalidNameMsg : String := "File or folder names can\x27t contain \"/\" in them"

/-- Message thrown by `createFolder` on a name collision (main.cpp:343). -/
def folderExistsMsg : String := "Folder already exists"

/-- Message thrown by `createFile` on a name collision (main.cpp:369). -/
def fileExistsMsg : String := "File already exists"

/-- Message thrown by `updateFile`, `printFileContents` and `deleteFile` for a
missing file (main.cpp:396,422,468). -/
def fileMissingMsg : String := "File doesn\x27t exists"

/-- Message thrown by `deleteFolder` for a missing folder (main.cpp:445). -/
def folderMissingMsg : String := "Folder doesn\x27t exists"

/-- Message thrown by `changeDirectory` when resolution fails (main.cpp:303). -/
def destMissingMsg : String := "Destination folder can\x27t be found"

/-- The two C++ exception classes thrown by the program. -/
inductive CppExc where
  | invalidArgument (msg : String)
  | runtimeError (msg : String)
deriving DecidableEq

/-- Body of the outer while loop of `FileManager::splitFilePath`
(main.cpp:232-246).  `curSplit` is the segment collected so far; the inner
while loop corresponds to the `else` branch that pushes the current character
onto `curSplit`.  On hitting a separator the source checks
`filePath[index+1] == '/'` (here: the head of `rest`), throws on an adjacent
separator, pushes the finished segment and continues after the separator. -/
def splitAux (curSplit : List Char) : List Char → Except String (List (List Char))
  | [] => .ok [curSplit]
  | c :: rest =>
    if c = '/' then
      match rest with
      | [] => .ok [curSplit]
      | r :: _ =>
        if r = '/' then
          .error adjMsg
        else
          match splitAux [] rest with
          | .error e => .error e
          | .ok tl => .ok (curSplit :: tl)
    else
      splitAux (curSplit ++ [c]) rest

/-- `FileManager::splitFilePath` (main.cpp:220-249): empty input yields no
segments, a leading separator throws, otherwise the loop modelled by
`splitAux` runs. -/
def splitFilePath (filePath : List Char) : Except String (List (List Char)) :=
  if filePath = [] then
    .ok []
  else if filePath.head? = some '/' then
    .error preMsg
  else
    splitAux [] filePath

/-- String-level wrapper of `splitFilePath` used by `changeDirectory`. -/
def splitFilePathStr (filePath : String) : Except String (List String) :=
  match splitFilePath filePath.data with
  | .error e => .error e
  | .ok segs => .ok (segs.map fun l => String.mk l)

/-- `FileManager::getFileExtension` (main.cpp:194-213).  The source scans
downwards for the last dot at index `i` and then, in the inner loop over
`j = i+1 .. size-1`, pushes `fileName[i]` (the dot itself — the loop variable
`j` is never used) onto the extension. -/
def getFileExtension (fileName : String) : String :=
  let cs := fileName.data
  match (List.range cs.length).reverse.find? (fun i => cs.getD i ' ' = '.') with
  | some i => String.mk (List.replicate (cs.length - (i + 1)) (cs.getD i ' '))
  | none => ""

/-- The test of `FileManager::throwIfNameInvalid` (main.cpp:256-260):
a name is invalid when it contains the path separator. -/
def nameInvalid (name : String) : Bool :=
  name.data.contains '/'

/-- The `File` node of the tree (main.cpp:21-55); metadata fields inlined. -/
structure File where
  fileSize : Nat
  fullPath : String
  fileExtension : String
  content : String
deriving DecidableEq

/-- `File::File` (main.cpp:36): the size is computed from the content
(`content.size()` counts bytes). -/
def mkFile (fullPath : String) (fileExtension : String) (content : String) : File :=
  { fileSize := content.utf8ByteSize, fullPath := fullPath,
    fileExtension := fileExtension, content := content }

/-- `File::updateContent` (main.cpp:38-42). -/
def File.updateContent (f : File) (newFileContent : String) : File :=
  { f with content := newFileContent, fileSize := newFileContent.utf8ByteSize }

/-- Lookup in an association list modelling `std::unordered_map` access. -/
def lookupA {α : Type} : List (String × α) → String → Option α
  | [], _ => none
  | (k, v) :: t, n => if k = n then some v else lookupA t n

/-- `map.count(n) != 0` of the source, as a boolean. -/
def hasKey {α : Type} (m : List (String × α)) (n : String) : Bool :=
  (lookupA m n).isSome

/-- `map[n] = v` of the source: overwrite the first binding of `n`, or append
a fresh binding. -/
def setA {α : Type} : List (String × α) → String → α → List (String × α)
  | [], n, v => [(n, v)]
  | (k, w) :: t, n, v => if k = n then (k, v) :: t else (k, w) :: setA t n v

/-- `map.erase(n)` of the source: drop the first binding of `n`. -/
def eraseA {α : Type} : List (String × α) → String → List (String × α)
  | [], _ => []
  | (k, v) :: t, n => if k = n then t else (k, v) :: eraseA t n

/-- The `Folder` node of the tree (main.cpp:57-144); metadata fields inlined.
Pointers to folders are heap ids (`Nat`); the counts are C++ `int`s. -/
structure Folder where
  foldersCount : Int
  filesCount : Int
  fullPath : String
  parentFolder : Option Nat
  folders : List (String × Nat)
  files : List (String × File)
deriving DecidableEq

/-- `Folder::Folder` (main.cpp:75-79): counts start at zero and, when a parent
exists, the reserved name ".." is pre-bound to it inside `folders_`. -/
def mkFolder (fullPath : String) (parentFolder : Option Nat) : Folder :=
  { foldersCount := 0, filesCount := 0, fullPath := fullPath,
    parentFolder := parentFolder,
    folders := match parentFolder with
      | some p => [("..", p)]
      | none => []
    files := [] }

/-- `Folder::addFolder` (main.cpp:81-85). -/
def Folder.addFolder (f : Folder) (newFolderName : String) (newFolderPointer : Nat) : Folder :=
  { f with folders := setA f.folders newFolderName newFolderPointer,
           foldersCount := f.foldersCount + 1 }

/-- `Folder::addFile` (main.cpp:87-91). -/
def Folder.addFile (f : Folder) (newFileName : String) (newFile : File) : Folder :=
  { f with files := setA f.files newFileName newFile,
           filesCount := f.filesCount + 1 }

/-- `Folder::removeFolder` (main.cpp:93-98); the `delete` of the child object
frees memory, which persists in the heap model. -/
def Folder.removeFolder (f : Folder) (folderName : String) : Folder :=
  { f with folders := eraseA f.folders folderName,
           foldersCount := f.foldersCount - 1 }

/-- `Folder::removeFile` (main.cpp:100-105). -/
def Folder.removeFile (f : Folder) (fileName : String) : Folder :=
  { f with files := eraseA f.files fileName,
           filesCount := f.filesCount - 1 }

/-- Combined state of one `FileStorage` (root folder + heap of `Folder`
objects) and one `FileManager` (current folder pointer + current path).
Heap cells at indices at or above `nextId` model unallocated memory: they are
never consulted in well-formed states. -/
structure FMState where
  heap : Nat → Folder
  nextId : Nat
  rootId : Nat
  currentDirPointer : Nat
  currentDirPath : String

/-- Write one heap cell (the effect of mutating an object through a pointer,
or of placement of a `new` object at a fresh address). -/
def writeHeap (h : Nat → Folder) (i : Nat) (f : Folder) : Nat → Folder :=
  fun j => if j = i then f else h j

/-- `FileStorage::FileStorage` (main.cpp:157-161) followed by
`FileManager::FileManager` (main.cpp:268): the root folder `"/"` with no
parent is allocated at id 0 and the manager starts there with path `"/"`. -/
def initState : FMState :=
  { heap := fun _ => mkFolder "/" none, nextId := 1, rootId := 0,
    currentDirPointer := 0, currentDirPath := "/" }

/-- Result of one public `FileManager` operation: either a normal return
(with the diagnostic printed to `std::cerr`, if any), or an exception that
escaped the operation uncaught. -/
inductive OpResult where
  | ok (s : FMState) (diag : Option String)
  | escaped (e : CppExc) (s : FMState)

/-- State after the operation (at the escape point for an uncaught
exception — the real program terminates there). -/
def OpResult.resultState : OpResult → FMState
  | .ok s _ => s
  | .escaped _ s => s

/-- The diagnostic printed to `std::cerr` by the operation, if any. -/
def OpResult.diag : OpResult → Option String
  | .ok _ d => d
  | .escaped _ _ => none

/-- The exception that escaped the operation, if any. -/
def OpResult.escapedExc : OpResult → Option CppExc
  | .ok _ _ => none
  | .escaped e _ => some e

/-- The resolution loop of `FileManager::changeDirectory` (main.cpp:299-306):
walk the segments, looking each one up in the `folders_` map of the current
resolution point (the reserved name ".." resolves through the map like any
other key, since the constructor pre-bound it). -/
def resolveSegments (s : FMState) : Nat → List String → Option Nat
  | cur, [] => some cur
  | cur, n :: rest =>
    match lookupA (s.heap cur).folders n with
    | none => none
    | some nxt => resolveSegments s nxt rest

/-- `FileManager::changeDirectory` (main.cpp:281-317).  Fast path: literal
string equality with the current path.  Resolution starts at the current
folder when `relative` and at the root otherwise; split errors and the
not-found error are `std::runtime_error`s caught by the operation itself and
printed; on success both the pointer and the path (set to the literal
argument) are updated. -/
def changeDirectory (s : FMState) (destinationFolder : String) (relative : Bool) : OpResult :=
  if s.currentDirPath = destinationFolder then
    .ok s none
  else
    match splitFilePathStr destinationFolder with
    | .error e => .ok s (some ("Couldn\x27t change directory: " ++ e))
    | .ok segs =>
      match resolveSegments s (if relative then s.currentDirPointer else s.rootId) segs with
      | none => .ok s (some ("Couldn\x27t change directory: " ++ destMissingMsg))
      | some fid =>
        .ok { s with currentDirPointer := fid, currentDirPath := destinationFolder } none

/-- `FileManager::createFolder` (main.cpp:337-352).  The operation catches
only `std::invalid_argument`; the `std::runtime_error` thrown on a name
collision escapes it uncaught.  The new folder path is built from the
manager path string, with a separator inserted. -/
def createFolder (s : FMState) (folderName : String) : OpResult :=
  if nameInvalid folderName then
    .ok s (some ("Error while creating folder: " ++ invalidNameMsg))
  else if hasKey (s.heap s.currentDirPointer).folders folderName then
    .escaped (.runtimeError folderExistsMsg) s
  else
    .ok { s with
            heap := (writeHeap
              (writeHeap s.heap s.nextId
                (mkFolder (s.currentDirPath ++ "/" ++ folderName) (some s.currentDirPointer)))
              s.currentDirPointer
              ((s.heap s.currentDirPointer).addFolder folderName s.nextId)),
            nextId := s.nextId + 1 } none

/-- `FileManager::createFile` (main.cpp:363-379); same catch shape as
`createFolder` (only `std::invalid_argument` is caught). -/
def createFile (s : FMState) (fileName : String) (fileContent : String) : OpResult :=
  if nameInvalid fileName then
    .ok s (some ("Error while creating file: " ++ invalidNameMsg))
  else if hasKey (s.heap s.currentDirPointer).files fileName then
    .escaped (.runtimeError fileExistsMsg) s
  else
    .ok { s with heap := (writeHeap s.heap s.currentDirPointer
            ((s.heap s.currentDirPointer).addFile fileName
              (mkFile (s.currentDirPath ++ "/" ++ fileName) (getFileExtension fileName) fileContent))) } none

/-- `FileManager::updateFile` (main.cpp:390-403); the not-found
`std::runtime_error` escapes the `std::invalid_argument` handler. -/
def updateFile (s : FMState) (fileName : String) (fileContent : String) : OpResult :=
  if nameInvalid fileName then
    .ok s (some ("Error while updating file: " ++ invalidNameMsg))
  else
    match lookupA (s.heap s.currentDirPointer).files fileName with
    | none => .escaped (.runtimeError fileMissingMsg) s
    | some f =>
      .ok { s with heap := (writeHeap s.heap s.currentDirPointer
              { s.heap s.currentDirPointer with
                files := (setA (s.heap s.currentDirPointer).files fileName
                  (f.updateContent fileContent)) }) } none

/-- `FileManager::printFileContents` (main.cpp:416-429): reading a file's
contents; no state change, and the not-found `std::runtime_error` escapes
(the function is even marked `noexcept`, so the escape is fatal). -/
def readFileContents (s : FMState) (fileName : String) : OpResult :=
  if nameInvalid fileName then
    .ok s (some ("Error while printing file: " ++ invalidNameMsg))
  else
    match lookupA (s.heap s.currentDirPointer).files fileName with
    | none => .escaped (.runtimeError fileMissingMsg) s
    | some _ => .ok s none

/-- `FileManager::deleteFolder` (main.cpp:439-452); the not-found
`std::runtime_error` escapes the `std::invalid_argument` handler. -/
def deleteFolder (s : FMState) (folderName : String) : OpResult :=
  if nameInvalid folderName then
    .ok s (some ("Error while deleting folder: " ++ invalidNameMsg))
  else if hasKey (s.heap s.currentDirPointer).folders folderName then
    .ok { s with heap := (writeHeap s.heap s.currentDirPointer
            ((s.heap s.currentDirPointer).removeFolder folderName)) } none
  else
    .escaped (.runtimeError folderMissingMsg) s

/-- `FileManager::deleteFile` (main.cpp:462-475); same shape as
`deleteFolder`. -/
def deleteFile (s : FMState) (fileName : String) : OpResult :=
  if nameInvalid fileName then
    .ok s (some ("Error while deleting file: " ++ invalidNameMsg))
  else if hasKey (s.heap s.currentDirPointer).files fileName then
    .ok { s with heap := (writeHeap s.heap s.currentDirPointer
            ((s.heap s.currentDirPointer).removeFile fileName)) } none
  else
    .escaped (.runtimeError fileMissingMsg) s

/-- One public operation of the manager, for reachability. -/
inductive Op where
  | changeDirectoryOp (dest : String) (relative : Bool)
  | createFolderOp (name : String)
  | createFileOp (name : String) (content : String)
  | updateFileOp (name : String) (content : String)
  | deleteFolderOp (name : String)
  | deleteFileOp (name : String)
  | readFileContentsOp (name : String)

/-- Dispatch one operation. -/
def applyOp (s : FMState) : Op → OpResult
  | .changeDirectoryOp dest rel => changeDirectory s dest rel
  | .createFolderOp name => createFolder s name
  | .createFileOp name content => createFile s name content
  | .updateFileOp name content => updateFile s name content
  | .deleteFolderOp name => deleteFolder s name
  | .deleteFileOp name => deleteFile s name
  | .readFileContentsOp name => readFileContents s name

/-- State transition of one operation (continuing from the escape point when
an exception escapes; escaping operations never mutate, see the claims). -/
def step (s : FMState) (op : Op) : FMState :=
  (applyOp s op).resultState

/-- Operations that never pass the reserved name ".." where a real child
name is expected (the "safe" fragment used by the amended invariants). -/
def safeOp : Op → Bool
  | .createFolderOp name => name != ".."
  | .deleteFolderOp name => name != ".."
  | _ => true

/-- States reachable from the initial state by safe operations. -/
inductive ReachableSafe : FMState → Prop where
  | init : ReachableSafe initState
  | next {s : FMState} (op : Op) : ReachableSafe s → safeOp op = true →
      ReachableSafe (step s op)

/-- Whether an operation result is a failure: either a diagnostic was printed
or an exception escaped the operation. -/
def OpResult.failedB (r : OpResult) : Bool :=
  r.diag.isSome || r.escapedExc.isSome

/-- Spec-side predicate: the character list contains two adjacent
separators. -/
def hasAdj : List Char → Bool
  | [] => false
  | [_] => false
  | a :: b :: t => (a = '/' && b = '/') || hasAdj (b :: t)

/-- Spec-side join: interleave the path separator between segments
("separator-delimited name segments"). -/
def joinSep : List (List Char) → List Char
  | [] => []
  | [sg] => sg
  | sg :: tl => sg ++ '/' :: joinSep tl

/-- Per-folder part of the safe-trace invariant: the stored counts describe
the association lists (the file count is the exact number of file entries;
the folder count omits the pre-installed ".." back-reference), and the ".."
binding of the `folders_` map is exactly the parent back-reference. -/
structure FolderInv (f : Folder) : Prop where
  filesCount_eq : f.filesCount = (f.files.length : Int)
  foldersCount_eq : f.foldersCount = ((f.folders.filter (fun e => e.1 ≠ "..")).length : Int)
  backref_iff : lookupA f.folders ".." = f.parentFolder

/-- Whole-state invariant maintained along safe traces. -/
structure StateInv (s : FMState) : Prop where
  root_lt : s.rootId < s.nextId
  cur_lt : s.currentDirPointer < s.nextId
  folderInv : ∀ i, i < s.nextId → FolderInv (s.heap i)
  child_lt : ∀ i, i < s.nextId → ∀ e ∈ (s.heap i).folders, e.2 < s.nextId

/-- Demonstration state: `createFolder("aaa")` from the initial state. -/
def demo1 : FMState := (createFolder initState "aaa").resultState

/-- Demonstration state: then `changeDirectory("aaa", true)`. -/
def demo2 : FMState := (changeDirectory demo1 "aaa" true).resultState

/-- Demonstration state: then `changeDirectory("..", true)` — back at the
root, but with current path equal to the literal string "..". -/
def demo3 : FMState := (changeDirectory demo2 ".." true).resultState

/-- Demonstration state: `createFolder("a")` then `changeDirectory("a", true)`
from the initial state, built through `step` so that reachability is by
construction. -/
def demoSub : FMState :=
  step (step initState (.createFolderOp "a")) (.changeDirectoryOp "a" true)

/-- Demonstration state: `createFolder("..")` from the initial state — the
root has no ".." binding, so the reserved name gets bound to a real child. -/
def demoDotRoot : FMState := (createFolder initState "..").resultState

/-- C1: evidence against the claim that every public CRUD operation catches
both name-validity failures and existence failures.  Name-validity failures
are indeed caught and reported (first conjunct), but every existence failure
(AlreadyExists and NotFound) is thrown as `std::runtime_error` while the
operations catch only `std::invalid_argument` (main.cpp:348,375,399,448,471),
so the exception escapes the operation and aborts the caller — contradicting
the source doc comments, which say these errors are "caught and handled
internally". -/
theorem crud_existence_failures_escape_uncaught :
    (createFolder initState "a/b").diag = some ("Error while creating folder: " ++ invalidNameMsg) ∧
    (createFolder demo1 "aaa").escapedExc = some (.runtimeError folderExistsMsg) ∧
    (createFile (createFile initState "f" "x").resultState "f" "y").escapedExc
      = some (.runtimeError fileExistsMsg) ∧
    (updateFile initState "f" "y").escapedExc = some (.runtimeError fileMissingMsg) ∧
    (deleteFolder initState "g").escapedExc = some (.runtimeError folderMissingMsg) ∧
    (deleteFile initState "f").escapedExc = some (.runtimeError fileMissingMsg) ∧
    (readFileContents initState "f").escapedExc = some (.runtimeError fileMissingMsg) :=
  ⟨rfl, rfl, rfl, rfl, rfl, rfl, rfl⟩

/-- C2: for every state and every operation, if the call fails — it prints a
diagnostic or an exception escapes — then the resulting state (at the escape
point, for an escaping exception) is exactly the state before the call: the
heap, the current-folder pointer and the current-path string are unchanged,
and a failing `changeDirectory` commits none of the partial traversal. -/
theorem mutating_failure_leaves_state_unchanged (s : FMState) (op : Op) :
    (applyOp s op).failedB = true → (applyOp s op).resultState = s := by
  cases op <;>
    simp only [applyOp, changeDirectory, createFolder, createFile, updateFile, deleteFolder,
      deleteFile, readFileContents] <;>
    (repeat' split) <;>
    intro h <;>
    first
      | rfl
      | simp [OpResult.failedB, OpResult.diag, OpResult.escapedExc] at h

/-- Witness for C2 at a concrete input: updating a non-existent file from the
initial state fails and leaves the state unchanged. -/
theorem mutating_failure_leaves_state_unchanged_witness :
    (applyOp initState (.updateFileOp "x" "y")).failedB = true ∧
    (applyOp initState (.updateFileOp "x" "y")).resultState = initState :=
  ⟨rfl, mutating_failure_leaves_state_unchanged initState (.updateFileOp "x" "y") rfl⟩

/-- C3: the extension-extraction routine evaluated at the claimed behaviour.
Because the inner loop of `getFileExtension` pushes `fileName[i]` (the dot)
instead of `fileName[j]` (main.cpp:206), the file "a.txt" gets extension
"..." — not "txt" as the claim states; the no-dot case does yield "". -/
theorem getFileExtension_copies_the_dot :
    getFileExtension "a.txt" = "..." ∧ getFileExtension "noext" = "" ∧
    ("..." : String) ≠ "txt" :=
  ⟨rfl, rfl, by decide⟩

/-- C4 counterexample: the folder "aaa" created directly under the root gets
stored full path "//aaa" (the manager path "/" plus an inserted separator
plus the name), not "/aaa" as the claim states, and not the concatenation of
the parent folder path "/" with the name. -/
theorem createFolder_root_path_counterexample :
    (demo1.heap 1).fullPath = "//aaa" ∧
    (initState.heap initState.rootId).fullPath = "/" ∧
    ("//aaa" : String) ≠ "/" ++ "aaa" :=
  ⟨rfl, rfl, by decide⟩

/-- C4 amended: a successfully created folder stores full path equal to the
manager current-path string, then one separator, then the name (main.cpp:344)
— the manager path string, not the parent folder stored path, and with a
separator always inserted even after the root path "/". -/
theorem createFolder_path_from_manager_path (s : FMState) (name : String)
    (hv : nameInvalid name = false)
    (hf : hasKey (s.heap s.currentDirPointer).folders name = false)
    (hc : s.currentDirPointer < s.nextId) :
    ((createFolder s name).resultState.heap s.nextId).fullPath =
      s.currentDirPath ++ "/" ++ name ∧
    (createFolder s name).diag = none ∧ (createFolder s name).escapedExc = none := by
  simp only [createFolder, hv, hf, Bool.false_eq_true, if_false]
  refine ⟨?_, rfl, rfl⟩
  simp [OpResult.resultState, writeHeap, mkFolder, (ne_of_gt hc)]

/-- Witness for C4 amended at the initial state and name "aaa". -/
theorem createFolder_path_from_manager_path_witness :
    ((createFolder initState "aaa").resultState.heap initState.nextId).fullPath =
      initState.currentDirPath ++ "/" ++ "aaa" :=
  (createFolder_path_from_manager_path initState "aaa" rfl rfl (by decide)).1

/-- C7 counterexample: in `demo2` the current path string is the literal
"aaa" while the current folder is the created subfolder; calling
`changeDirectory("aaa", true)` again hits the literal fast path
(main.cpp:283) and reports success without resolving anything — yet resolving
"aaa" relative to the current folder fails, so the current folder does not
point at any resolved destination. -/
theorem changeDirectory_fast_path_counterexample :
    (changeDirectory demo2 "aaa" true).diag = none ∧
    (changeDirectory demo2 "aaa" true).escapedExc = none ∧
    (changeDirectory demo2 "aaa" true).resultState = demo2 ∧
    splitFilePathStr "aaa" = .ok ["aaa"] ∧
    resolveSegments demo2 demo2.currentDirPointer ["aaa"] = none :=
  ⟨rfl, rfl, rfl, rfl, rfl⟩

/-- C7 amended: when the destination string equals the current path the call
is a silent no-op; in every other successful call the current folder pointer
is set to the folder resolved by walking the split destination from the
current folder (relative) or the root (absolute), and the current path string
is set to the literal destination argument, with no normalization. -/
theorem changeDirectory_success_sets_literal_path (s : FMState) (dest : String)
    (relative : Bool) :
    (s.currentDirPath = dest → changeDirectory s dest relative = .ok s none) ∧
    (s.currentDirPath ≠ dest → (changeDirectory s dest relative).diag = none →
      ∃ segs fid, splitFilePathStr dest = .ok segs ∧
        resolveSegments s (if relative then s.currentDirPointer else s.rootId) segs = some fid ∧
        changeDirectory s dest relative =
          .ok { s with currentDirPointer := fid, currentDirPath := dest } none) := by
  constructor
  · intro h
    unfold changeDirectory
    rw [if_pos h]
  · intro h
    unfold changeDirectory
    rw [if_neg h]
    split
    · intro hd
      simp [OpResult.diag] at hd
    · split
      · intro hd
        simp [OpResult.diag] at hd
      · intro _
        exact ⟨_, _, by assumption, by assumption, rfl⟩

/-- Witness for C7 amended: from the initial state, `changeDirectory("", false)`
succeeds, resolves the empty path to the root, and stores the literal
argument "" as current path. -/
theorem changeDirectory_success_sets_literal_path_witness :
    ∃ segs fid, splitFilePathStr "" = .ok segs ∧
      resolveSegments initState (if false then initState.currentDirPointer else initState.rootId) segs = some fid ∧
      changeDirectory initState "" false =
        .ok { initState with currentDirPointer := fid, currentDirPath := "" } none :=
  (changeDirectory_success_sets_literal_path initState "" false).2 (by decide) rfl

/-- C10 counterexample: `demo3` is reachable, its current folder is the root,
the root has no ".." binding at all — yet `changeDirectory("..", true)`
reports no failure, because the current path string happens to be the literal
".." and the fast path returns immediately. -/
theorem cd_parent_at_root_counterexample :
    demo3.currentDirPointer = demo3.rootId ∧
    lookupA (demo3.heap demo3.rootId).folders ".." = none ∧
    (changeDirectory demo3 ".." true).diag = none ∧
    (changeDirectory demo3 ".." true).resultState = demo3 :=
  ⟨rfl, rfl, rfl, rfl⟩

/-- C10 amended: if additionally the current path string is not the literal
"..", then `changeDirectory("..", true)` at a root without a ".." binding
fails with the reported not-found diagnostic and changes nothing. -/
theorem cd_parent_at_root_fails (s : FMState)
    (hcur : s.currentDirPointer = s.rootId)
    (hroot : lookupA (s.heap s.rootId).folders ".." = none)
    (hpath : s.currentDirPath ≠ "..") :
    changeDirectory s ".." true =
      .ok s (some ("Couldn\x27t change directory: " ++ destMissingMsg)) := by
  unfold changeDirectory
  rw [if_neg hpath]
  have hres : resolveSegments s s.currentDirPointer [".."] = none := by
    show (match lookupA (s.heap s.currentDirPointer).folders ".." with
          | none => none
          | some nxt => resolveSegments s nxt []) = none
    rw [hcur, hroot]
  simp only [show splitFilePathStr ".." = .ok [".."] from rfl, eq_self_iff_true, if_true, hres]

/-- Witness for C10 amended at the initial state. -/
theorem cd_parent_at_root_fails_witness :
    changeDirectory initState ".." true =
      .ok initState (some ("Couldn\x27t change directory: " ++ destMissingMsg)) :=
  cd_parent_at_root_fails initState rfl rfl (by decide)

/-- Step equation: the loop at the end of the input pushes the collected
segment. -/
theorem splitAux_nil_eq (cur : List Char) : splitAux cur [] = .ok [cur] := rfl

/-- Step equation: a trailing separator ends the loop after pushing the
collected segment (the `index+1 < size` guard fails). -/
theorem splitAux_sep_one (cur : List Char) : splitAux cur ['/'] = .ok [cur] := rfl

/-- Step equation: two adjacent separators throw. -/
theorem splitAux_sep_sep (cur : List Char) (t : List Char) :
    splitAux cur ('/' :: '/' :: t) = .error adjMsg := rfl

/-- Step equation: a non-separator character is pushed onto the collected
segment. -/
theorem splitAux_cons_ne (cur : List Char) (c : Char) (rest : List Char) (hc : c ≠ '/') :
    splitAux cur (c :: rest) = splitAux (cur ++ [c]) rest := by
  show (if c = '/' then
      match rest with
      | [] => Except.ok [cur]
      | r :: _ =>
        if r = '/' then Except.error adjMsg
        else
          match splitAux [] rest with
          | .error e => .error e
          | .ok tl => .ok (cur :: tl)
    else splitAux (cur ++ [c]) rest) = splitAux (cur ++ [c]) rest
  rw [if_neg hc]

/-- Step equation: a separator followed by a non-separator pushes the
collected segment and restarts the loop on the remainder. -/
theorem splitAux_sep (cur : List Char) (r : Char) (t : List Char) (hr : r ≠ '/') :
    splitAux cur ('/' :: r :: t) =
      (match splitAux [] (r :: t) with
       | .error e => .error e
       | .ok tl => .ok (cur :: tl)) := by
  show (if r = '/' then Except.error adjMsg
        else match splitAux [] (r :: t) with
             | .error e => .error e
             | .ok tl => .ok (cur :: tl)) =
       (match splitAux [] (r :: t) with
        | .error e => .error e
        | .ok tl => .ok (cur :: tl))
  rw [if_neg hr]

/-- Prepending a non-separator character does not change adjacency. -/
theorem hasAdj_cons_ne (c : Char) (l : List Char) (hc : c ≠ '/') :
    hasAdj (c :: l) = hasAdj l := by
  cases l with
  | nil => simp [hasAdj]
  | cons b t => simp [hasAdj, hc]

/-- Adjacency survives prepending any character to a list that has it. -/
theorem hasAdj_cons_of (a : Char) (l : List Char) (h : hasAdj l = true) :
    hasAdj (a :: l) = true := by
  cases l with
  | nil => simp [hasAdj] at h
  | cons b t => simp [hasAdj, h]

/-- Adjacency survives prepending any list. -/
theorem hasAdj_append_right (xs ys : List Char) (h : hasAdj ys = true) :
    hasAdj (xs ++ ys) = true := by
  induction xs with
  | nil => simpa using h
  | cons x xs ih => exact hasAdj_cons_of x (xs ++ ys) ih

/-- The spec-side adjacency test coincides with "contains the infix
consisting of two separators". -/
theorem hasAdj_iff_infix (l : List Char) : hasAdj l = true ↔ ['/', '/'] <:+: l := by
  constructor
  · intro h
    induction l with
    | nil => simp [hasAdj] at h
    | cons a t ih =>
      cases t with
      | nil => simp [hasAdj] at h
      | cons b t' =>
        simp only [hasAdj, Bool.or_eq_true, Bool.and_eq_true, decide_eq_true_eq] at h
        rcases h with ⟨ha, hb⟩ | h
        · subst ha; subst hb
          exact ⟨[], t', rfl⟩
        · exact List.infix_cons (ih h)
  · rintro ⟨s, t, rfl⟩
    rw [List.append_assoc]
    exact hasAdj_append_right s ('/' :: '/' :: t) rfl

/-- Joining a list whose first segment starts with a character pulls the
character out front. -/
theorem joinSep_cons_char (c : Char) (s : List Char) (tl : List (List Char)) :
    joinSep ((c :: s) :: tl) = c :: joinSep (s :: tl) := by
  cases tl <;> rfl

/-- When a join cannot be empty or start with a separator, the first segment
is nonempty. -/
theorem joinSep_first_ne_nil (s0 : List Char) (tl : List (List Char)) (l : List Char)
    (h : l = joinSep (s0 :: tl) ∨ l = joinSep (s0 :: tl) ++ ['/'])
    (hne : l ≠ []) (hh : l.head? ≠ some '/') : s0 ≠ [] := by
  intro hs0
  subst hs0
  cases tl with
  | nil =>
    rcases h with h | h
    · exact hne (by simpa [joinSep] using h)
    · rw [h] at hh
      simp [joinSep] at hh
  | cons x xs =>
    rcases h with h | h
    · rw [h] at hh
      simp [joinSep] at hh
    · rw [h] at hh
      simp [joinSep] at hh

/-- Step corollary: the restarted loop propagates an error. -/
theorem splitAux_sep_error (cur : List Char) (r : Char) (t : List Char) (e : String)
    (hr : r ≠ '/') (h : splitAux [] (r :: t) = .error e) :
    splitAux cur ('/' :: r :: t) = .error e := by
  rw [splitAux_sep cur r t hr, h]

/-- Step corollary: the restarted loop contributes the later segments. -/
theorem splitAux_sep_ok (cur : List Char) (r : Char) (t : List Char) (tl : List (List Char))
    (hr : r ≠ '/') (h : splitAux [] (r :: t) = .ok tl) :
    splitAux cur ('/' :: r :: t) = .ok (cur :: tl) := by
  rw [splitAux_sep cur r t hr, h]

/-- Full behaviour of the split loop: it fails exactly on adjacent
separators, and a successful run returns the separator-delimited segments of
the input (the first extended by the accumulated prefix), all separator-free,
tail segments nonempty, and joining them with the separator reconstructs the
input up to one optional trailing separator. -/
theorem splitAux_spec : ∀ (l cur : List Char),
    ((∃ e, splitAux cur l = .error e) ↔ hasAdj l = true) ∧
    (∀ segs, splitAux cur l = .ok segs →
      ∃ s0 tl, segs = (cur ++ s0) :: tl ∧ '/' ∉ s0 ∧
        (∀ sg ∈ tl, sg ≠ [] ∧ '/' ∉ sg) ∧
        (l = joinSep (s0 :: tl) ∨ l = joinSep (s0 :: tl) ++ ['/'])) := by
  intro l
  induction l with
  | nil =>
    intro cur
    refine ⟨⟨?_, ?_⟩, ?_⟩
    · rintro ⟨e, he⟩
      rw [splitAux_nil_eq] at he
      cases he
    · intro h
      simp [hasAdj] at h
    · intro segs h
      rw [splitAux_nil_eq] at h
      cases h
      exact ⟨[], [], by simp, by simp, by simp, Or.inl rfl⟩
  | cons c rest ih =>
    intro cur
    by_cases hc : c = '/'
    · subst hc
      cases rest with
      | nil =>
        refine ⟨⟨?_, ?_⟩, ?_⟩
        · rintro ⟨e, he⟩
          rw [splitAux_sep_one] at he
          cases he
        · intro h
          simp [hasAdj] at h
        · intro segs h
          rw [splitAux_sep_one] at h
          cases h
          exact ⟨[], [], by simp, by simp, by simp, Or.inr rfl⟩
      | cons r t =>
        by_cases hr : r = '/'
        · subst hr
          refine ⟨⟨?_, ?_⟩, ?_⟩
          · intro _
            rfl
          · intro _
            exact ⟨adjMsg, splitAux_sep_sep cur t⟩
          · intro segs h
            rw [splitAux_sep_sep] at h
            cases h
        · have hadj : hasAdj ('/' :: r :: t) = hasAdj (r :: t) := by
            simp [hasAdj, hr]
          refine ⟨?_, ?_⟩
          · rw [hadj, ← (ih []).1]
            constructor
            · rintro ⟨e, he⟩
              cases h' : splitAux [] (r :: t) with
              | error e' => exact ⟨e', rfl⟩
              | ok tl =>
                rw [splitAux_sep_ok cur r t tl hr h'] at he
                cases he
            · rintro ⟨e, he⟩
              exact ⟨e, splitAux_sep_error cur r t e hr he⟩
          · intro segs h
            cases h' : splitAux [] (r :: t) with
            | error e' =>
              rw [splitAux_sep_error cur r t e' hr h'] at h
              cases h
            | ok tl =>
              rw [splitAux_sep_ok cur r t tl hr h'] at h
              cases h
              rcases (ih []).2 tl h' with ⟨s0', tl'', htl, hmem, htail, hrec⟩
              have hs0' : s0' ≠ [] :=
                joinSep_first_ne_nil s0' tl'' (r :: t) hrec (by simp) (by simp [hr])
              rw [List.nil_append] at htl
              subst htl
              refine ⟨[], s0' :: tl'', by simp, by simp, ?_, ?_⟩
              · intro sg hsg
                rcases List.mem_cons.mp hsg with rfl | hsg
                · exact ⟨hs0', hmem⟩
                · exact htail sg hsg
              · have hj : joinSep ([] :: s0' :: tl'') = '/' :: joinSep (s0' :: tl'') := rfl
                rcases hrec with hrec | hrec
                · exact Or.inl (by rw [hj, ← hrec])
                · exact Or.inr (by rw [hj, List.cons_append, ← hrec])
    · have hstep := splitAux_cons_ne cur c rest hc
      refine ⟨?_, ?_⟩
      · rw [hstep, (ih (cur ++ [c])).1, hasAdj_cons_ne c rest hc]
      · intro segs h
        rw [hstep] at h
        rcases (ih (cur ++ [c])).2 segs h with ⟨s0', tl'', htl, hmem, htail, hrec⟩
        refine ⟨c :: s0', tl'', by rw [htl, List.append_assoc, List.singleton_append], ?_, htail, ?_⟩
        · intro hmem'
          rcases List.mem_cons.mp hmem' with h' | h'
          · exact hc h'.symm
          · exact hmem h'
        · have hj : joinSep ((c :: s0') :: tl'') = c :: joinSep (s0' :: tl'') :=
            joinSep_cons_char c s0' tl''
          rcases hrec with hrec | hrec
          · exact Or.inl (by rw [hj, ← hrec])
          · exact Or.inr (by rw [hj, List.cons_append, ← hrec])

/-- `splitFilePath` fails exactly on a leading separator or two adjacent
separators. -/
theorem splitFilePath_error_iff (l : List Char) :
    (∃ e, splitFilePath l = .error e) ↔ (l.head? = some '/' ∨ ['/', '/'] <:+: l) := by
  unfold splitFilePath
  by_cases h0 : l = []
  · subst h0
    rw [if_pos rfl]
    constructor
    · rintro ⟨e, he⟩
      cases he
    · rintro (h | h)
      · simp at h
      · rcases h with ⟨s, t, hst⟩
        simp at hst
  · rw [if_neg h0]
    by_cases hh : l.head? = some '/'
    · rw [if_pos hh]
      constructor
      · intro _
        exact Or.inl hh
      · intro _
        exact ⟨preMsg, rfl⟩
    · rw [if_neg hh]
      rw [(splitAux_spec l []).1, hasAdj_iff_infix]
      constructor
      · exact Or.inr
      · rintro (h | h)
        · exact absurd h hh
        · exact h

/-- A successful `splitFilePath` returns nonempty separator-free segments
whose separator-join reconstructs the input up to one optional trailing
separator. -/
theorem splitFilePath_ok_spec (l : List Char) (segs : List (List Char))
    (h : splitFilePath l = .ok segs) :
    (∀ sg ∈ segs, sg ≠ [] ∧ '/' ∉ sg) ∧
    (l = joinSep segs ∨ l = joinSep segs ++ ['/']) := by
  unfold splitFilePath at h
  by_cases h0 : l = []
  · subst h0
    rw [if_pos rfl] at h
    cases h
    exact ⟨by simp, Or.inl rfl⟩
  · rw [if_neg h0] at h
    by_cases hh : l.head? = some '/'
    · rw [if_pos hh] at h
      cases h
    · rw [if_neg hh] at h
      rcases (splitAux_spec l []).2 segs h with ⟨s0, tl, hsegs, hmem, htail, hrec⟩
      rw [List.nil_append] at hsegs
      subst hsegs
      have hs0 : s0 ≠ [] := joinSep_first_ne_nil s0 tl l hrec h0 hh
      refine ⟨?_, hrec⟩
      intro sg hsg
      rcases List.mem_cons.mp hsg with rfl | hsg
      · exact ⟨hs0, hmem⟩
      · exact htail sg hsg

/-- C9: `splitFilePath` fails — with the MalformedPath-class runtime errors
of the source — exactly when the path begins with the separator or contains
two adjacent separators; otherwise it returns the ordered separator-delimited
name segments (all nonempty and separator-free; rejoining them with the
separator reconstructs the input up to one optional trailing separator), and
the empty string yields the empty sequence. -/
theorem splitFilePath_characterization (p : String) :
    ((∃ e, splitFilePath p.data = .error e) ↔
      (p.data.head? = some '/' ∨ ['/', '/'] <:+: p.data)) ∧
    (∀ segs, splitFilePath p.data = .ok segs →
      (∀ sg ∈ segs, sg ≠ [] ∧ '/' ∉ sg) ∧
      (p.data = joinSep segs ∨ p.data = joinSep segs ++ ['/'])) ∧
    splitFilePath "".data = .ok [] :=
  ⟨splitFilePath_error_iff p.data, fun segs h => splitFilePath_ok_spec p.data segs h, rfl⟩

/-- Witness for C9 at concrete inputs: "a//b" fails, and "a/b" splits into
the two nonempty segments "a" and "b" that rejoin to "a/b". -/
theorem splitFilePath_characterization_witness :
    (∃ e, splitFilePath "a//b".data = .error e) ∧
    ((∀ sg ∈ [['a'], ['b']], sg ≠ [] ∧ '/' ∉ sg) ∧
      ("a/b".data = joinSep [['a'], ['b']] ∨ "a/b".data = joinSep [['a'], ['b']] ++ ['/'])) :=
  ⟨(splitFilePath_characterization "a//b").1.mpr (Or.inr (by decide)),
   (splitFilePath_characterization "a/b").2.1 [['a'], ['b']] rfl⟩

/-- Appending a trailing separator to a nonempty input that does not already
end with one does not change the split loop result. -/
theorem splitAux_append_sep : ∀ (l cur : List Char), l ≠ [] → l.getLast? ≠ some '/' →
    splitAux cur (l ++ ['/']) = splitAux cur l := by
  intro l
  induction l with
  | nil =>
    intro cur h _
    exact absurd rfl h
  | cons c rest ih =>
    intro cur _ hlast
    by_cases hc : c = '/'
    · subst hc
      cases rest with
      | nil => simp at hlast
      | cons r t =>
        have hlast' : (r :: t).getLast? ≠ some '/' := by
          rwa [List.getLast?_cons_cons] at hlast
        by_cases hr : r = '/'
        · subst hr
          simp only [List.cons_append]
          rw [splitAux_sep_sep, splitAux_sep_sep]
        · have hrec := ih [] (by simp) hlast'
          simp only [List.cons_append] at hrec ⊢
          rw [splitAux_sep cur r (t ++ ['/']) hr, splitAux_sep cur r t hr, hrec]
    · cases rest with
      | nil =>
        simp only [List.cons_append, List.nil_append]
        rw [splitAux_cons_ne cur c ['/'] hc, splitAux_cons_ne cur c [] hc]
        rw [splitAux_sep_one, splitAux_nil_eq]
      | cons r t =>
        have hlast' : (r :: t).getLast? ≠ some '/' := by
          rwa [List.getLast?_cons_cons] at hlast
        simp only [List.cons_append]
        rw [splitAux_cons_ne cur c (r :: (t ++ ['/'])) hc, splitAux_cons_ne cur c (r :: t) hc]
        have := ih (cur ++ [c]) (by simp) hlast'
        simpa only [List.cons_append] using this

/-- Appending a trailing separator to a nonempty path that does not already
end with one does not change `splitFilePath` at all. -/
theorem splitFilePath_append_sep (l : List Char) (h1 : l ≠ []) (h2 : l.getLast? ≠ some '/') :
    splitFilePath (l ++ ['/']) = splitFilePath l := by
  unfold splitFilePath
  have hne : l ++ ['/'] ≠ [] := by simp
  rw [if_neg hne, if_neg h1, List.head?_append_of_ne_nil _ h1]
  by_cases hh : l.head? = some '/'
  · rw [if_pos hh, if_pos hh]
  · rw [if_neg hh, if_neg hh]
    exact splitAux_append_sep l [] h1 h2

/-- C8 counterexample: for the empty path, appending one trailing separator
changes the result — split("") succeeds with no segments while split("/") is
the leading-separator error; likewise "a/" splits to ["a"] while "a//" is
the adjacent-separator error.  The claim quantifies over every path string,
so it fails at these inputs. -/
theorem split_trailing_sep_counterexample :
    splitFilePath ("".data ++ ['/']) = .error preMsg ∧
    splitFilePath "".data = .ok [] ∧
    splitFilePath ("a/".data ++ ['/']) = .error adjMsg ∧
    splitFilePath "a/".data = .ok [['a']] :=
  ⟨rfl, rfl, rfl, rfl⟩

/-- C8 amended: for every nonempty path that does not already end with the
separator, appending one trailing separator does not change the result of
split (same segments, same error), and a trailing separator never produces
an empty trailing segment (every returned segment is nonempty). -/
theorem split_trailing_sep_amended (p : String)
    (h1 : p.data ≠ []) (h2 : p.data.getLast? ≠ some '/') :
    splitFilePath (p.data ++ ['/']) = splitFilePath p.data ∧
    (∀ segs, splitFilePath (p.data ++ ['/']) = .ok segs → ∀ sg ∈ segs, sg ≠ []) := by
  refine ⟨splitFilePath_append_sep p.data h1 h2, ?_⟩
  intro segs h sg hsg
  exact ((splitFilePath_ok_spec (p.data ++ ['/']) segs h).1 sg hsg).1

/-- Witness for C8 amended at the concrete path "ab". -/
theorem split_trailing_sep_amended_witness :
    splitFilePath ("ab".data ++ ['/']) = splitFilePath "ab".data ∧
    (∀ segs, splitFilePath ("ab".data ++ ['/']) = .ok segs → ∀ sg ∈ segs, sg ≠ []) :=
  split_trailing_sep_amended "ab" (by decide) (by decide)

/-- Setting a key absent from the map appends a fresh binding. -/
theorem lookupA_none_setA {α : Type} (m : List (String × α)) (n : String) (v : α)
    (h : lookupA m n = none) : setA m n v = m ++ [(n, v)] := by
  induction m with
  | nil => rfl
  | cons e t ih =>
    obtain ⟨k, w⟩ := e
    by_cases hk : k = n
    · simp only [lookupA, if_pos hk] at h
      cases h
    · simp only [lookupA, if_neg hk] at h
      simp only [setA, if_neg hk, List.cons_append]
      exact congrArg (List.cons (k, w)) (ih h)

/-- A binding appended at the end is invisible to lookups of other keys. -/
theorem lookupA_snoc_ne {α : Type} (m : List (String × α)) (n k : String) (v : α)
    (hk : k ≠ n) : lookupA (m ++ [(n, v)]) k = lookupA m k := by
  induction m with
  | nil =>
    simp only [List.nil_append, lookupA]
    rw [if_neg (Ne.symm hk)]
  | cons e t ih =>
    obtain ⟨k', w⟩ := e
    by_cases h : k' = k
    · simp only [List.cons_append, lookupA, if_pos h]
    · simp only [List.cons_append, lookupA, if_neg h]
      exact ih

/-- A successful lookup splits the map around the first binding of the key. -/
theorem lookupA_some_decomp {α : Type} (m : List (String × α)) (n : String) (v : α)
    (h : lookupA m n = some v) :
    ∃ m1 m2, m = m1 ++ (n, v) :: m2 ∧ lookupA m1 n = none := by
  induction m with
  | nil => cases h
  | cons e t ih =>
    obtain ⟨k, w⟩ := e
    by_cases hk : k = n
    · subst hk
      simp only [lookupA, if_pos rfl] at h
      cases h
      exact ⟨[], t, rfl, rfl⟩
    · simp only [lookupA, if_neg hk] at h
      rcases ih h with ⟨m1, m2, hm, hm1⟩
      refine ⟨(k, w) :: m1, m2, by rw [hm, List.cons_append], ?_⟩
      simp only [lookupA, if_neg hk, hm1]

/-- Erasing a key removes exactly its first binding. -/
theorem eraseA_decomp {α : Type} (m1 m2 : List (String × α)) (n : String) (v : α)
    (h : lookupA m1 n = none) : eraseA (m1 ++ (n, v) :: m2) n = m1 ++ m2 := by
  induction m1 with
  | nil => simp [eraseA]
  | cons e t ih =>
    obtain ⟨k, w⟩ := e
    by_cases hk : k = n
    · simp only [lookupA, if_pos hk] at h
      cases h
    · simp only [lookupA, if_neg hk] at h
      simp only [List.cons_append, eraseA, if_neg hk]
      exact congrArg (List.cons (k, w)) (ih h)

/-- Assigning a present key overwrites exactly its first binding in place. -/
theorem setA_decomp {α : Type} (m1 m2 : List (String × α)) (n : String) (v w : α)
    (h : lookupA m1 n = none) : setA (m1 ++ (n, v) :: m2) n w = m1 ++ (n, w) :: m2 := by
  induction m1 with
  | nil => simp [setA]
  | cons e t ih =>
    obtain ⟨k, w'⟩ := e
    by_cases hk : k = n
    · simp only [lookupA, if_pos hk] at h
      cases h
    · simp only [lookupA, if_neg hk] at h
      simp only [List.cons_append, setA, if_neg hk]
      exact congrArg (List.cons (k, w')) (ih h)

/-- Removing a foreign binding from the middle is invisible to other keys. -/
theorem lookupA_middle_ne {α : Type} (m1 m2 : List (String × α)) (n k : String) (v : α)
    (hk : k ≠ n) : lookupA (m1 ++ (n, v) :: m2) k = lookupA (m1 ++ m2) k := by
  induction m1 with
  | nil =>
    simp only [List.nil_append, lookupA]
    rw [if_neg (Ne.symm hk)]
  | cons e t ih =>
    obtain ⟨k', w⟩ := e
    by_cases h : k' = k
    · simp only [List.cons_append, lookupA, if_pos h]
    · simp only [List.cons_append, lookupA, if_neg h]
      exact ih

/-- A successful lookup is a membership. -/
theorem lookupA_mem {α : Type} (m : List (String × α)) (n : String) (v : α)
    (h : lookupA m n = some v) : (n, v) ∈ m := by
  induction m with
  | nil => cases h
  | cons e t ih =>
    obtain ⟨k, w⟩ := e
    by_cases hk : k = n
    · subst hk
      simp only [lookupA, if_pos rfl] at h
      cases h
      exact List.mem_cons_self _ _
    · simp only [lookupA, if_neg hk] at h
      exact List.mem_cons_of_mem _ (ih h)

/-- Step equation of the resolution loop on the empty segment list. -/
theorem resolveSegments_nil (s : FMState) (cur : Nat) :
    resolveSegments s cur [] = some cur := rfl

/-- Step equation of the resolution loop on one more segment. -/
theorem resolveSegments_cons (s : FMState) (cur : Nat) (n : String) (rest : List String) :
    resolveSegments s cur (n :: rest) =
      (match lookupA (s.heap cur).folders n with
       | none => none
       | some nxt => resolveSegments s nxt rest) := rfl

/-- Walking allocated folders through their child maps stays inside the
allocated region of the heap. -/
theorem resolveSegments_lt (s : FMState)
    (hch : ∀ i, i < s.nextId → ∀ e ∈ (s.heap i).folders, e.2 < s.nextId) :
    ∀ (segs : List String) (start : Nat), start < s.nextId →
      ∀ r, resolveSegments s start segs = some r → r < s.nextId := by
  intro segs
  induction segs with
  | nil =>
    intro start hs r h
    rw [resolveSegments_nil] at h
    cases h
    exact hs
  | cons n rest ih =>
    intro start hs r h
    rw [resolveSegments_cons] at h
    cases hl : lookupA (s.heap start).folders n with
    | none => rw [hl] at h; cases h
    | some nxt =>
      rw [hl] at h
      exact ih nxt (hch start hs (n, nxt) (lookupA_mem _ _ _ hl)) r h

/-- The initial state satisfies the invariant. -/
theorem stateInv_init : StateInv initState := by
  refine ⟨Nat.zero_lt_one, Nat.zero_lt_one, ?_, ?_⟩
  · intro i _
    exact ⟨rfl, rfl, rfl⟩
  · intro i _ e he
    cases he

/-- Writing a well-formed folder with in-bounds children at the current
pointer preserves the invariant (heap shape of `createFile`, `updateFile`,
`deleteFolder`, `deleteFile`). -/
theorem stateInv_writeCur (s : FMState) (f' : Folder) (hinv : StateInv s)
    (hfi : FolderInv f') (hch : ∀ e ∈ f'.folders, e.2 < s.nextId) :
    StateInv { s with heap := writeHeap s.heap s.currentDirPointer f' } := by
  refine ⟨hinv.root_lt, hinv.cur_lt, ?_, ?_⟩
  · intro i hi
    by_cases h : i = s.currentDirPointer
    · subst h
      simpa [writeHeap] using hfi
    · simpa [writeHeap, h] using hinv.folderInv i hi
  · intro i hi e he
    by_cases h : i = s.currentDirPointer
    · subst h
      simp only [writeHeap, if_pos rfl] at he
      exact hch e he
    · simp only [writeHeap, if_neg h] at he
      exact hinv.child_lt i hi e he

/-- A present key, from the boolean test of the source. -/
theorem hasKey_some {α : Type} (m : List (String × α)) (n : String)
    (h : hasKey m n = true) : ∃ v, lookupA m n = some v := by
  unfold hasKey at h
  exact Option.isSome_iff_exists.mp h

/-- An absent key, from the boolean test of the source. -/
theorem hasKey_none {α : Type} (m : List (String × α)) (n : String)
    (h : hasKey m n = false) : lookupA m n = none := by
  unfold hasKey at h
  cases hl : lookupA m n
  · rfl
  · rw [hl] at h
    cases h

/-- Erasure only removes entries. -/
theorem mem_eraseA {α : Type} (m : List (String × α)) (n : String) (e : String × α)
    (h : e ∈ eraseA m n) : e ∈ m := by
  induction m with
  | nil => cases h
  | cons e' t ih =>
    obtain ⟨k, w⟩ := e'
    by_cases hk : k = n
    · simp only [eraseA, if_pos hk] at h
      exact List.mem_cons_of_mem _ h
    · simp only [eraseA, if_neg hk] at h
      rcases List.mem_cons.mp h with rfl | h
      · exact List.mem_cons_self _ _
      · exact List.mem_cons_of_mem _ (ih h)

/-- Assignment only adds the assigned binding. -/
theorem mem_setA {α : Type} (m : List (String × α)) (n : String) (v : α) (e : String × α)
    (h : e ∈ setA m n v) : e ∈ m ∨ e = (n, v) := by
  induction m with
  | nil =>
    simp only [setA] at h
    rw [List.mem_singleton.mp h]
    exact Or.inr rfl
  | cons e' t ih =>
    obtain ⟨k, w⟩ := e'
    by_cases hk : k = n
    · simp only [setA, if_pos hk] at h
      rcases List.mem_cons.mp h with rfl | h
      · subst hk
        exact Or.inr rfl
      · exact Or.inl (List.mem_cons_of_mem _ h)
    · simp only [setA, if_neg hk] at h
      rcases List.mem_cons.mp h with rfl | h
      · exact Or.inl (List.mem_cons_self _ _)
      · rcases ih h with h | h
        · exact Or.inl (List.mem_cons_of_mem _ h)
        · exact Or.inr h

/-- `Folder::addFile` on a fresh name keeps the per-folder invariant. -/
theorem folderInv_addFile (fd : Folder) (name : String) (fl : File) (hfi : FolderInv fd)
    (hk : hasKey fd.files name = false) : FolderInv (fd.addFile name fl) := by
  have hnone := hasKey_none _ _ hk
  refine ⟨?_, hfi.foldersCount_eq, hfi.backref_iff⟩
  show fd.filesCount + 1 = ((setA fd.files name fl).length : Int)
  rw [lookupA_none_setA _ _ _ hnone, List.length_append, hfi.filesCount_eq]
  simp only [List.length_singleton]
  push_cast
  omega

/-- Overwriting a present file binding keeps the per-folder invariant. -/
theorem folderInv_setFile (fd : Folder) (name : String) (v w : File) (hfi : FolderInv fd)
    (hl : lookupA fd.files name = some v) :
    FolderInv { fd with files := setA fd.files name w } := by
  rcases lookupA_some_decomp _ _ _ hl with ⟨m1, m2, hm, hm1⟩
  refine ⟨?_, hfi.foldersCount_eq, hfi.backref_iff⟩
  show fd.filesCount = ((setA fd.files name w).length : Int)
  rw [hm, setA_decomp m1 m2 name v w hm1, hfi.filesCount_eq, hm]
  simp [List.length_append]

/-- `Folder::removeFile` on a present name keeps the per-folder invariant. -/
theorem folderInv_removeFile (fd : Folder) (name : String) (v : File) (hfi : FolderInv fd)
    (hl : lookupA fd.files name = some v) : FolderInv (fd.removeFile name) := by
  rcases lookupA_some_decomp _ _ _ hl with ⟨m1, m2, hm, hm1⟩
  refine ⟨?_, hfi.foldersCount_eq, hfi.backref_iff⟩
  show fd.filesCount - 1 = ((eraseA fd.files name).length : Int)
  rw [hm, eraseA_decomp m1 m2 name v hm1, hfi.filesCount_eq, hm]
  simp only [List.length_append, List.length_cons]
  push_cast
  omega

/-- `Folder::removeFolder` on a present name other than ".." keeps the
per-folder invariant. -/
theorem folderInv_removeFolder (fd : Folder) (name : String) (v : Nat) (hfi : FolderInv fd)
    (hl : lookupA fd.folders name = some v) (hname : name ≠ "..") :
    FolderInv (fd.removeFolder name) := by
  rcases lookupA_some_decomp _ _ _ hl with ⟨m1, m2, hm, hm1⟩
  refine ⟨hfi.filesCount_eq, ?_, ?_⟩
  · show fd.foldersCount - 1 =
      (((eraseA fd.folders name).filter (fun e => e.1 ≠ "..")).length : Int)
    rw [hm, eraseA_decomp m1 m2 name v hm1, hfi.foldersCount_eq, hm]
    have hlen : ((m1 ++ (name, v) :: m2).filter (fun e => e.1 ≠ "..")).length =
        ((m1 ++ m2).filter (fun e => e.1 ≠ "..")).length + 1 := by
      simp [List.filter_append, List.filter_cons, hname]
      omega
    rw [hlen]
    push_cast
    omega
  · show lookupA (eraseA fd.folders name) ".." = fd.parentFolder
    rw [hm, eraseA_decomp m1 m2 name v hm1,
      ← lookupA_middle_ne m1 m2 name ".." v (Ne.symm hname), ← hm]
    exact hfi.backref_iff

/-- `Folder::addFolder` on a fresh name other than ".." keeps the per-folder
invariant. -/
theorem folderInv_addFolder (fd : Folder) (name : String) (ptr : Nat) (hfi : FolderInv fd)
    (hnone : lookupA fd.folders name = none) (hname : name ≠ "..") :
    FolderInv (fd.addFolder name ptr) := by
  refine ⟨hfi.filesCount_eq, ?_, ?_⟩
  · show fd.foldersCount + 1 =
      (((setA fd.folders name ptr).filter (fun e => e.1 ≠ "..")).length : Int)
    rw [lookupA_none_setA _ _ _ hnone, List.filter_append, List.length_append,
      hfi.foldersCount_eq]
    simp [hname]
  · show lookupA (setA fd.folders name ptr) ".." = fd.parentFolder
    rw [lookupA_none_setA _ _ _ hnone, lookupA_snoc_ne _ _ _ _ (Ne.symm hname)]
    exact hfi.backref_iff

/-- `changeDirectory` preserves the invariant: the heap is untouched and a
successful resolution lands on an allocated folder. -/
theorem stateInv_cd (s : FMState) (dest : String) (rel : Bool) (hinv : StateInv s) :
    StateInv (changeDirectory s dest rel).resultState := by
  unfold changeDirectory
  split
  · exact hinv
  · split
    · exact hinv
    · split
      · exact hinv
      · rename_i fid hres
        have hstart : (if rel = true then s.currentDirPointer else s.rootId) < s.nextId := by
          by_cases hrel : rel = true <;> simp [hrel, hinv.cur_lt, hinv.root_lt]
        refine ⟨hinv.root_lt, ?_, hinv.folderInv, hinv.child_lt⟩
        exact resolveSegments_lt s hinv.child_lt _ _ hstart fid hres

/-- `createFile` preserves the invariant. -/
theorem stateInv_createFile (s : FMState) (name content : String) (hinv : StateInv s) :
    StateInv (createFile s name content).resultState := by
  unfold createFile
  split
  · exact hinv
  · split
    · exact hinv
    · rename_i hk
      refine stateInv_writeCur s _ hinv ?_ ?_
      · exact folderInv_addFile _ name _ (hinv.folderInv _ hinv.cur_lt)
          (by simpa using hk)
      · intro e he
        exact hinv.child_lt _ hinv.cur_lt e he

/-- `updateFile` preserves the invariant. -/
theorem stateInv_updateFile (s : FMState) (name content : String) (hinv : StateInv s) :
    StateInv (updateFile s name content).resultState := by
  unfold updateFile
  split
  · exact hinv
  · split
    · exact hinv
    · rename_i f hl
      refine stateInv_writeCur s _ hinv ?_ ?_
      · exact folderInv_setFile _ name f _ (hinv.folderInv _ hinv.cur_lt) hl
      · intro e he
        exact hinv.child_lt _ hinv.cur_lt e he

/-- `readFileContents` preserves the invariant (no state change). -/
theorem stateInv_readFileContents (s : FMState) (name : String) (hinv : StateInv s) :
    StateInv (readFileContents s name).resultState := by
  unfold readFileContents
  split
  · exact hinv
  · split
    · exact hinv
    · exact hinv

/-- `deleteFolder` on a name other than ".." preserves the invariant. -/
theorem stateInv_deleteFolder (s : FMState) (name : String) (hinv : StateInv s)
    (hname : name ≠ "..") : StateInv (deleteFolder s name).resultState := by
  unfold deleteFolder
  split
  · exact hinv
  · split
    · rename_i hk
      obtain ⟨v, hl⟩ := hasKey_some _ _ hk
      refine stateInv_writeCur s _ hinv ?_ ?_
      · exact folderInv_removeFolder _ name v (hinv.folderInv _ hinv.cur_lt) hl hname
      · intro e he
        exact hinv.child_lt _ hinv.cur_lt e (mem_eraseA _ _ _ he)
    · exact hinv

/-- `deleteFile` preserves the invariant. -/
theorem stateInv_deleteFile (s : FMState) (name : String) (hinv : StateInv s) :
    StateInv (deleteFile s name).resultState := by
  unfold deleteFile
  split
  · exact hinv
  · split
    · rename_i hk
      obtain ⟨v, hl⟩ := hasKey_some _ _ hk
      refine stateInv_writeCur s _ hinv ?_ ?_
      · exact folderInv_removeFile _ name v (hinv.folderInv _ hinv.cur_lt) hl
      · intro e he
        exact hinv.child_lt _ hinv.cur_lt e he
    · exact hinv

/-- Allocating a fresh folder at `nextId` while rebinding the current folder
(the heap shape of `createFolder`) preserves the invariant when both written
folders are well formed with in-bounds children. -/
theorem stateInv_alloc (s : FMState) (f2 newF : Folder) (hinv : StateInv s)
    (hfi : FolderInv f2) (hnewInv : FolderInv newF)
    (hch : ∀ e ∈ f2.folders, e.2 < s.nextId + 1)
    (hchNew : ∀ e ∈ newF.folders, e.2 < s.nextId + 1) :
    StateInv { s with
      heap := writeHeap (writeHeap s.heap s.nextId newF) s.currentDirPointer f2,
      nextId := s.nextId + 1 } := by
  have hne : s.nextId ≠ s.currentDirPointer := Nat.ne_of_gt hinv.cur_lt
  refine ⟨Nat.lt_succ_of_lt hinv.root_lt, Nat.lt_succ_of_lt hinv.cur_lt, ?_, ?_⟩
  · intro i hi
    by_cases hic : i = s.currentDirPointer
    · subst hic
      simpa [writeHeap] using hfi
    · by_cases hin : i = s.nextId
      · subst hin
        simpa [writeHeap, hne] using hnewInv
      · have hi2 : i < s.nextId + 1 := hi
        have hilt : i < s.nextId := by omega
        simpa [writeHeap, hic, hin] using hinv.folderInv i hilt
  · intro i hi e he
    by_cases hic : i = s.currentDirPointer
    · subst hic
      simp only [writeHeap, if_pos rfl] at he
      exact hch e he
    · by_cases hin : i = s.nextId
      · subst hin
        simp only [writeHeap, if_neg hne, if_pos rfl] at he
        exact hchNew e he
      · have hi2 : i < s.nextId + 1 := hi
        have hilt : i < s.nextId := by omega
        simp only [writeHeap, if_neg hic, if_neg hin] at he
        exact Nat.lt_succ_of_lt (hinv.child_lt i hilt e he)

/-- `createFolder` on a name other than ".." preserves the invariant: the new
folder is allocated at the fresh id with its parent back-reference, and the
current folder gains one real child. -/
theorem stateInv_createFolder (s : FMState) (name : String) (hinv : StateInv s)
    (hname : name ≠ "..") : StateInv (createFolder s name).resultState := by
  unfold createFolder
  split
  · exact hinv
  · split
    · exact hinv
    · rename_i hk
      have hnone : lookupA (s.heap s.currentDirPointer).folders name = none :=
        hasKey_none _ _ (by simpa using hk)
      refine stateInv_alloc s _ _ hinv ?_ ⟨rfl, rfl, rfl⟩ ?_ ?_
      · exact folderInv_addFolder _ name _ (hinv.folderInv _ hinv.cur_lt) hnone hname
      · intro e he
        rcases mem_setA _ _ _ _ he with h | h
        · exact Nat.lt_succ_of_lt (hinv.child_lt _ hinv.cur_lt e h)
        · rw [h]
          exact Nat.lt_succ_self _
      · intro e he
        rw [List.mem_singleton.mp he]
        exact Nat.lt_succ_of_lt hinv.cur_lt

/-- One safe operation preserves the invariant. -/
theorem stateInv_step (s : FMState) (op : Op) (hinv : StateInv s)
    (hsafe : safeOp op = true) : StateInv (step s op) := by
  cases op with
  | changeDirectoryOp dest rel => exact stateInv_cd s dest rel hinv
  | createFolderOp name =>
    exact stateInv_createFolder s name hinv (by simpa [safeOp] using hsafe)
  | createFileOp name content => exact stateInv_createFile s name content hinv
  | updateFileOp name content => exact stateInv_updateFile s name content hinv
  | deleteFolderOp name =>
    exact stateInv_deleteFolder s name hinv (by simpa [safeOp] using hsafe)
  | deleteFileOp name => exact stateInv_deleteFile s name hinv
  | readFileContentsOp name => exact stateInv_readFileContents s name hinv

/-- Every safely-reachable state satisfies the invariant. -/
theorem reachableSafe_inv (s : FMState) (h : ReachableSafe s) : StateInv s := by
  induction h with
  | init => exact stateInv_init
  | next op _ hs ih => exact stateInv_step _ op ih hs

/-- C5 counterexample: `demo1` is reachable (one safe `createFolder("aaa")`
from the initial state), and the newly created folder stores folder count 0
while its folder-name mapping holds one entry — the pre-installed ".."
back-reference, which `Folder::Folder` inserts without counting
(main.cpp:75-79). -/
theorem folder_count_counterexample :
    ReachableSafe demo1 ∧
    (demo1.heap 1).foldersCount = 0 ∧
    (demo1.heap 1).folders.length = 1 :=
  ⟨ReachableSafe.next (.createFolderOp "aaa") ReachableSafe.init (by decide), rfl, rfl⟩

/-- C5 amended: in every state reachable by operations that never pass the
reserved name ".." as the name argument of createFolder or deleteFolder, and
for every allocated folder, the stored file count equals the number of
entries of the file mapping, and the stored folder count equals the number of
entries of the folder mapping whose key differs from the reserved name ".."
(the constructor pre-installs the parent back-reference under ".." without
counting it). -/
theorem folder_counts_amended (s : FMState) (h : ReachableSafe s) (i : Nat)
    (hi : i < s.nextId) :
    (s.heap i).filesCount = ((s.heap i).files.length : Int) ∧
    (s.heap i).foldersCount =
      (((s.heap i).folders.filter (fun e => e.1 ≠ "..")).length : Int) := by
  have hinv := reachableSafe_inv s h
  exact ⟨(hinv.folderInv i hi).filesCount_eq, (hinv.folderInv i hi).foldersCount_eq⟩

/-- Witness for C5 amended in the reachable state `demo1` at the created
folder (id 1): file count 0 with no file entries, folder count 0 with the
sole ".." entry filtered out. -/
theorem folder_counts_amended_witness :
    (demo1.heap 1).filesCount = ((demo1.heap 1).files.length : Int) ∧
    (demo1.heap 1).foldersCount =
      (((demo1.heap 1).folders.filter (fun e => e.1 ≠ "..")).length : Int) :=
  folder_counts_amended demo1
    (ReachableSafe.next (.createFolderOp "aaa") ReachableSafe.init (by decide))
    1 (by decide)

/-- C6 counterexample: at the root — which has no ".." binding, since the
root is constructed parentless — `createFolder("..")` succeeds (no diagnostic
and no escaping exception) and binds the reserved name ".." to a newly
created real child folder whose parent is the root. -/
theorem createFolder_dotdot_at_root_counterexample :
    (createFolder initState "..").diag = none ∧
    (createFolder initState "..").escapedExc = none ∧
    demoDotRoot.rootId = 0 ∧
    lookupA (demoDotRoot.heap 0).folders ".." = some 1 ∧
    (demoDotRoot.heap 1).parentFolder = some 0 :=
  ⟨rfl, rfl, rfl, rfl, rfl⟩

/-- C6 amended: in every state reachable by operations that never pass the
reserved name ".." as the name argument of createFolder or deleteFolder,
every allocated folder's ".." binding, when present, is exactly its parent
back-reference (so no folder has a real child bound under ".."), and in a
current folder that has a parent, createFolder("..") always fails — with the
AlreadyExists runtime error escaping the operation uncaught — changing
nothing.  At the parentless root, however, createFolder("..") does succeed
and binds ".." to a newly created child (see the counterexample). -/
theorem dotdot_is_parent_backref (s : FMState) (h : ReachableSafe s) :
    (∀ i, i < s.nextId → ∀ c, lookupA (s.heap i).folders ".." = some c →
      (s.heap i).parentFolder = some c) ∧
    ((s.heap s.currentDirPointer).parentFolder.isSome = true →
      createFolder s ".." = .escaped (.runtimeError folderExistsMsg) s) := by
  have hinv := reachableSafe_inv s h
  constructor
  · intro i hi c hc
    rw [← (hinv.folderInv i hi).backref_iff]
    exact hc
  · intro hp
    obtain ⟨p, hp2⟩ := Option.isSome_iff_exists.mp hp
    have hb := (hinv.folderInv s.currentDirPointer hinv.cur_lt).backref_iff
    rw [hp2] at hb
    have hkey : hasKey (s.heap s.currentDirPointer).folders ".." = true := by
      unfold hasKey
      rw [hb]
      rfl
    unfold createFolder
    rw [if_neg (by decide : ¬nameInvalid ".." = true), if_pos hkey]

/-- Witness for C6 amended in the reachable state `demoSub` (inside folder
"a", which has the root as parent): createFolder("..") escapes with the
AlreadyExists runtime error and leaves the state unchanged. -/
theorem dotdot_is_parent_backref_witness :
    createFolder demoSub ".." = .escaped (.runtimeError folderExistsMsg) demoSub :=
  (dotdot_is_parent_backref demoSub
    (ReachableSafe.next (.changeDirectoryOp "a" true)
      (ReachableSafe.next (.createFolderOp "a") ReachableSafe.init (by decide))
      (by decide))).2 rfl
